import Mathlib

/-!
Verification of the activity-aggregation pipeline of
`GitHub-Activity-Reports-Generator` (`src/main.py`).

The Python source is shallowly embedded: every HTTP endpoint is an oracle
(a function from page number, issue number, … to the decoded JSON payload),
dictionaries returned by the API are fixed-field structures with `Option`
fields for keys that may be missing (`none` models a missing key or JSON
`null`), and Python truthiness (`if not x`) is spelled out explicitly
(`none`/`""`/`0` are falsy).  The unbounded `while True` pagination loops
are given an explicit fuel argument; all theorems about them assume enough
fuel for the pages actually consumed, mirroring a terminating run.
-/

namespace GHActivity

/-! ## String helpers (character-level, mirroring Python `str` operations) -/

/-- Boolean test that `pat` is a prefix of `l` (character lists). -/
def isPrefixList : List Char → List Char → Bool
  | [], _ => true
  | _ :: _, [] => false
  | a :: as, b :: bs => a = b && isPrefixList as bs

/-- Boolean substring test on character lists: Python's `pat in s`. -/
def isSubList (pat : List Char) : List Char → Bool
  | [] => isPrefixList pat []
  | c :: rest => isPrefixList pat (c :: rest) || isSubList pat rest

/-- Python's `pat in hay` on strings. -/
def strContains (hay pat : String) : Bool :=
  isSubList pat.data hay.data

/-- Python slicing `s[:n]` (by characters). -/
def pyTruncate (n : Nat) (s : String) : String :=
  String.mk (s.data.take n)

/-- Python `s.strip()`: drop leading and trailing whitespace. -/
def pyStrip (s : String) : String :=
  String.mk (((s.data.dropWhile Char.isWhitespace).reverse.dropWhile
    Char.isWhitespace).reverse)

/-- Python truthiness coalescing `x or "unknown"` on an optional string
(`None` and `""` are falsy). -/
def str_or_unknown (o : Option String) : String :=
  match o with
  | none => "unknown"
  | some s => if s = "" then "unknown" else s

/-- Python truthiness coalescing `x or ""` on an optional string. -/
def str_or_empty (o : Option String) : String :=
  match o with
  | none => ""
  | some s => s

/-! ## Commit records

`main.py` normalizes every fetched commit into the dict
`{sha, msg, date, author, url}` (see `fetch_commits_from_pr` and
`fetch_repo_commits_in_range`).  `none` models a JSON `null`/missing key. -/

/-- Normalized commit record `{sha, msg, date, author, url}`. -/
structure Commit where
  sha : Option String
  msg : Option String
  date : Option String
  author : Option String
  url : Option String
deriving DecidableEq, Repr

/-- Escape a character for a JSON string literal (enough for a
deterministic serialization: backslash and double quote). -/
def jsonEscape (s : String) : String :=
  s.data.foldl (fun acc c =>
    if c = '\\' then acc ++ "\\\\"
    else if c = '"' then acc ++ "\\\""
    else acc ++ String.singleton c) ""

/-- Render an optional string as a JSON value (`null` for `none`). -/
def jsonOptStr (o : Option String) : String :=
  match o with
  | none => "null"
  | some s => "\"" ++ jsonEscape s ++ "\""

/-- `json.dumps(commit, sort_keys=True)`: deterministic full-structural
serialization of a commit record, keys in alphabetical order. -/
def jsonDumpsCommit (c : Commit) : String :=
  "\x7b\"author\": " ++ jsonOptStr c.author ++
  ", \"date\": " ++ jsonOptStr c.date ++
  ", \"msg\": " ++ jsonOptStr c.msg ++
  ", \"sha\": " ++ jsonOptStr c.sha ++
  ", \"url\": " ++ jsonOptStr c.url ++ "\x7d"

/-- Identity key used by `dedupe_commits`: the `sha` when it is truthy
(present and non-empty), otherwise `json.dumps(commit, sort_keys=True)`
(the `if not sha` branch of the source). -/
def commitKey (c : Commit) : String :=
  match c.sha with
  | some s => if s = "" then jsonDumpsCommit c else s
  | none => jsonDumpsCommit c

/-- Loop of `dedupe_commits`: walk the list, keeping a commit only when
its identity key has not been seen yet. -/
def dedupeAux : List Commit → List String → List Commit
  | [], _ => []
  | c :: rest, seen =>
    if commitKey c ∈ seen then dedupeAux rest seen
    else c :: dedupeAux rest (commitKey c :: seen)

/-- `dedupe_commits(commits_list)` from `main.py` (lines 527–553):
deduplicate by identity key, preserving first occurrence. -/
def dedupe_commits (commits_list : List Commit) : List Commit :=
  dedupeAux commits_list []

/-- The subsequence of a list keeping, for each identity key, only the
first commit carrying that key (the characterization used by claim C3). -/
def keepFirstByKey : List Commit → List Commit
  | [] => []
  | c :: rest =>
      c :: keepFirstByKey (rest.filter (fun d => !(commitKey d == commitKey c)))
termination_by l => l.length
decreasing_by
  simp_wf
  exact Nat.lt_succ_of_le (List.length_filter_le _ _)

/-! ## Paginated REST fetches

Every HTTP collection endpoint is modelled as a page oracle
`pages : Nat → List _` giving the decoded body of the request for page
`p` (pages are 1-indexed, as in the source).  The unbounded `while True`
loops take a fuel argument; each loop iteration performs exactly one page
request, and the returned `Nat` counts the pages requested. -/

/-- `per_page = 100`, the fixed page size used by every paginated loop. -/
def per_page : Nat := 100

/-- A search-result item; only its `number` field is consumed by the
source (`item["number"]`). -/
structure SearchItem where
  number : Nat
deriving DecidableEq, Repr

/-- The `while True` loop of `search_issues_by_field` (lines 173–195):
request page, stop on an empty page (collecting nothing from it) or a
short page (collecting it), else continue with the next page.  Returns
the collected items and the number of page requests performed. -/
def search_pages_loop (pages : Nat → List SearchItem) :
    Nat → Nat → List SearchItem × Nat
  | 0, _ => ([], 0)
  | Nat.succ fuel, page =>
    let page_items := pages page
    if page_items.isEmpty then ([], 1)
    else if page_items.length < per_page then (page_items, 1)
    else
      let r := search_pages_loop pages fuel (page + 1)
      (page_items ++ r.1, r.2 + 1)

/-- `search_issues_by_field(repo, field, since, until)`: paginated issue
search starting at page 1.  The repo/field/date parameters only shape the
query URL; here they are abstracted into the page oracle. -/
def search_issues_by_field (pages : Nat → List SearchItem) (fuel : Nat) :
    List SearchItem × Nat :=
  search_pages_loop pages fuel 1

/-- The wire form of one commit as consumed by the extraction code:
`sha`, `commit.message` (default `""` via `.get("message","")`),
`commit.author.date`, `commit.author.name`, `html_url`. -/
structure RawCommit where
  sha : Option String
  message : String
  date : Option String
  author : Option String
  html_url : Option String
deriving DecidableEq, Repr

/-- The per-commit extraction shared by `fetch_commits_from_pr` and
`fetch_repo_commits_in_range`: build `{sha, msg, date, author, url}`
with the message truncated to its first 200 characters (`[:200]`). -/
def extractCommit (commit : RawCommit) : Commit :=
  { sha := commit.sha
  , msg := some (pyTruncate 200 commit.message)
  , date := commit.date
  , author := commit.author
  , url := commit.html_url }

/-- The `while True` loop of `fetch_repo_commits_in_range`
(lines 379–420): request page, stop on an empty page, extract and collect
the page, stop if it was short, else continue.  Returns the extracted
commits and the number of page requests performed. -/
def repo_commits_loop (pages : Nat → List RawCommit) :
    Nat → Nat → List Commit × Nat
  | 0, _ => ([], 0)
  | Nat.succ fuel, page =>
    let data := pages page
    if data.isEmpty then ([], 1)
    else
      let cs := data.map extractCommit
      if data.length < per_page then (cs, 1)
      else
        let r := repo_commits_loop pages fuel (page + 1)
        (cs ++ r.1, r.2 + 1)

/-- `fetch_repo_commits_in_range(repo, start, end)`: paginated repo-wide
commit listing starting at page 1 (the window only shapes the URL). -/
def fetch_repo_commits_in_range (pages : Nat → List RawCommit) (fuel : Nat) :
    List Commit × Nat :=
  repo_commits_loop pages fuel 1

/-! ## Single-request fetches (PR commits, timeline)

`fetch_commits_from_pr` (lines 318–345) and `fetch_prs_from_timeline`
(lines 289–316) each perform exactly ONE `requests.get` with no
`per_page`/`page` parameter, so they consume only the first page the
server returns for that endpoint. -/

/-- `fetch_commits_from_pr(repo, pr_number)`: a single GET of
`/pulls/{n}/commits`, each returned commit extracted to the normalized
record.  Only page 1 of the endpoint is ever requested. -/
def fetch_commits_from_pr (pages : Nat → List RawCommit) : List Commit :=
  (pages 1).map extractCommit

/-- The `source` object of a timeline event: `src.get("type")` and
`src.get("issue", {}).get("number")`. -/
structure TimelineSource where
  typ : Option String
  issue_number : Option Nat
deriving DecidableEq, Repr

/-- One timeline event: `e.get("event")` and the optional `source`
(`none` models `"source" not in e`). -/
structure TimelineEvent where
  event : Option String
  source : Option TimelineSource
deriving DecidableEq, Repr

/-- `fetch_prs_from_timeline(repo, issue_number)`: a single GET of the
issue timeline; collect `source.issue.number` of every event with
`event == "cross-referenced"`, a present `source` of
`type == "pull_request"`, and a truthy number. -/
def fetch_prs_from_timeline (pages : Nat → List TimelineEvent) : List Nat :=
  (pages 1).foldl (fun prs e =>
    if e.event = some "cross-referenced" then
      match e.source with
      | some src =>
        if src.typ = some "pull_request" then
          match src.issue_number with
          | some pr_num => if pr_num = 0 then prs else prs ++ [pr_num]
          | none => prs
        else prs
      | none => prs
    else prs) []

/-- The pagination rule stated by the spec for REST collection fetches
(page size 100, sequential pages, stop after a short or empty page),
written from the spec's words so that claim C6 can be compared against
the single-request functions above. -/
def spec_paginated_items (pages : Nat → List RawCommit) :
    Nat → Nat → List RawCommit
  | 0, _ => []
  | Nat.succ fuel, page =>
    let data := pages page
    if data.length < per_page then data
    else data ++ spec_paginated_items pages fuel (page + 1)

/-- `fetch_commits_search(repo, issue_number, start, end)` (lines
422–443): fetch all repo commits in the window, keep those whose
(truncated) `msg` contains the literal substring `"#<issue_number>"`. -/
def fetch_commits_search (pages : Nat → List RawCommit) (fuel : Nat)
    (issue_number : Nat) : List Commit :=
  let all_commits := (fetch_repo_commits_in_range pages fuel).1
  all_commits.filter (fun commit =>
    strContains (str_or_empty commit.msg) ("#" ++ toString issue_number))

/-! ## The relationship resolver (`gather_activity_for_issue`) -/

/-- A fetched issue record.  Only the fields the pipeline reads are kept:
`number` (always present on a fetched issue) and `user.login` for author
resolution (`none` models a missing login). -/
structure Issue where
  number : Nat
  user_login : Option String
deriving DecidableEq, Repr

/-- One node of the GraphQL `trackedIssues` answer; `n.get("number")`
may be missing. -/
structure TrackedNode where
  number : Option Nat
deriving DecidableEq, Repr

/-- The API surface consumed by the relationship resolver, as oracles:
issue detail by number, `trackedIssues` nodes by epic number, timeline
pages by issue number, PR-commit pages by PR number, and repo-wide
commit pages. -/
structure Env where
  issue_detail : Nat → Issue
  tracked_nodes : Nat → List TrackedNode
  timeline_pages : Nat → Nat → List TimelineEvent
  pr_commit_pages : Nat → Nat → List RawCommit
  repo_pages : Nat → List RawCommit

/-- `fetch_issue(repo, issue_number)`: single GET of the issue detail. -/
def fetch_issue (env : Env) (issue_number : Nat) : Issue :=
  env.issue_detail issue_number

/-- `fetch_sub_issues(repo, issue_number)` (lines 240–287): for each
`trackedIssues` node with a truthy number, fetch the full issue detail. -/
def fetch_sub_issues (env : Env) (issue_number : Nat) : List Issue :=
  (env.tracked_nodes issue_number).foldl (fun detailed n =>
    match n.number with
    | some si_num =>
        if si_num = 0 then detailed
        else detailed ++ [fetch_issue env si_num]
    | none => detailed) []

/-- `ActivityInfo`: the dict built by `gather_activity_for_issue`
(`issue`, `sub_issues`, `pr_numbers` as a Python set, `commits`). -/
structure ActivityInfo where
  issue : Issue
  sub_issues : List Issue
  pr_numbers : Finset Nat
  commits : List Commit
deriving DecidableEq

/-- The PR loop that appears (twice, verbatim) in
`gather_activity_for_issue`: for each timeline PR number not yet in
`pr_numbers`, add it and append that PR's commits. -/
def process_timeline_prs (pr_commit_pages : Nat → Nat → List RawCommit)
    (prs : List Nat) (st : Finset Nat × List Commit) :
    Finset Nat × List Commit :=
  prs.foldl (fun st prn =>
    if prn ∈ st.1 then st
    else (insert prn st.1, st.2 ++ fetch_commits_from_pr (pr_commit_pages prn)))
    st

/-- The body of the `for si in sub_issues` loop of
`gather_activity_for_issue` (lines 482–493): skip a sub-issue with a
falsy number, else run its timeline PRs through the shared state and
append its message-search commits. -/
def sub_issue_step (env : Env) (fuel : Nat)
    (st : Finset Nat × List Commit) (si : Issue) : Finset Nat × List Commit :=
  let si_num := si.number
  if si_num = 0 then st
  else
    let st' := process_timeline_prs env.pr_commit_pages
      (fetch_prs_from_timeline (env.timeline_pages si_num)) st
    (st'.1, st'.2 ++ fetch_commits_search env.repo_pages fuel si_num)

/-- `gather_activity_for_issue(repo, issue_json, start, end)` (lines
445–495): fetch sub-issues, walk the primary issue's timeline PRs
(fetching each newly seen PR's commits), append the message-search
commits for the primary issue, then repeat timeline + search for every
sub-issue with a truthy number, all into the same state. -/
def gather_activity_for_issue (env : Env) (fuel : Nat) (issue_json : Issue) :
    ActivityInfo :=
  let num := issue_json.number
  let sub_issues := fetch_sub_issues env num
  let st0 : Finset Nat × List Commit := (∅, [])
  let st1 := process_timeline_prs env.pr_commit_pages
    (fetch_prs_from_timeline (env.timeline_pages num)) st0
  let st2 : Finset Nat × List Commit :=
    (st1.1, st1.2 ++ fetch_commits_search env.repo_pages fuel num)
  let st3 := sub_issues.foldl (sub_issue_step env fuel) st2
  { issue := issue_json
  , sub_issues := sub_issues
  , pr_numbers := st3.1
  , commits := st3.2 }

/-! ### Instrumented resolver

To state claim C2 ("each PR's commits are fetched exactly once") the
resolver is replayed with a trace recording, in order, every PR number
for which `fetch_commits_from_pr` is invoked.  The traced functions are
proved to project onto the untraced ones. -/

/-- Resolver state extended with the trace of PR-commit fetches. -/
structure TraceSt where
  pr_numbers : Finset Nat
  commits : List Commit
  fetched : List Nat
deriving DecidableEq

/-- Traced version of `process_timeline_prs`: additionally records each
PR number whose commits get fetched. -/
def process_timeline_prs_traced (pr_commit_pages : Nat → Nat → List RawCommit)
    (prs : List Nat) (st : TraceSt) : TraceSt :=
  prs.foldl (fun st prn =>
    if prn ∈ st.pr_numbers then st
    else
      { pr_numbers := insert prn st.pr_numbers
      , commits := st.commits ++ fetch_commits_from_pr (pr_commit_pages prn)
      , fetched := st.fetched ++ [prn] }) st

/-- Traced version of `sub_issue_step`. -/
def sub_issue_step_traced (env : Env) (fuel : Nat)
    (st : TraceSt) (si : Issue) : TraceSt :=
  let si_num := si.number
  if si_num = 0 then st
  else
    let st' := process_timeline_prs_traced env.pr_commit_pages
      (fetch_prs_from_timeline (env.timeline_pages si_num)) st
    ⟨st'.pr_numbers,
      st'.commits ++ fetch_commits_search env.repo_pages fuel si_num,
      st'.fetched⟩

/-- Traced version of `gather_activity_for_issue`; returns the
`ActivityInfo` together with the ordered list of PR numbers for which a
commit fetch was performed. -/
def gather_activity_traced (env : Env) (fuel : Nat) (issue_json : Issue) :
    ActivityInfo × List Nat :=
  let num := issue_json.number
  let sub_issues := fetch_sub_issues env num
  let st0 : TraceSt := ⟨∅, [], []⟩
  let st1 := process_timeline_prs_traced env.pr_commit_pages
    (fetch_prs_from_timeline (env.timeline_pages num)) st0
  let st2 : TraceSt :=
    ⟨st1.pr_numbers, st1.commits ++ fetch_commits_search env.repo_pages fuel num,
      st1.fetched⟩
  let st3 := sub_issues.foldl (sub_issue_step_traced env fuel) st2
  ({ issue := issue_json
   , sub_issues := sub_issues
   , pr_numbers := st3.pr_numbers
   , commits := st3.commits }, st3.fetched)

/-! ## The issue collector (`fetch_issues_in_date_range`) -/

/-- The API surface of the issue collector: search pages per field
(`"created"` / `"updated"`) and issue detail by number. -/
structure IssueSearchEnv where
  search_pages : String → Nat → List SearchItem
  issue_detail : Nat → Issue

/-- `fetch_issues_in_date_range(repo, start, end)` (lines 215–238):
search issues created in the window and issues updated in the window,
take the set of their numbers (`{item["number"] for item in ...}`,
modelled as `dedup`), and fetch the detail of each unique number in
ascending order (`sorted(numbers)`, modelled as an insertion sort). -/
def fetch_issues_in_date_range (env : IssueSearchEnv) (fuel : Nat) :
    List Issue :=
  let created_items := (search_issues_by_field (env.search_pages "created") fuel).1
  let updated_items := (search_issues_by_field (env.search_pages "updated") fuel).1
  let numbers : List Nat :=
    ((created_items ++ updated_items).map SearchItem.number).dedup
  (List.insertionSort (· ≤ ·) numbers).map (fun num => env.issue_detail num)

/-- The sorted list of unique issue numbers that
`fetch_issues_in_date_range` iterates over (`sorted(numbers)`). -/
def issue_numbers_sorted (env : IssueSearchEnv) (fuel : Nat) : List Nat :=
  List.insertionSort (· ≤ ·)
    ((((search_issues_by_field (env.search_pages "created") fuel).1 ++
       (search_issues_by_field (env.search_pages "updated") fuel).1).map
      SearchItem.number).dedup)

/-! ## Author identity resolution and the author aggregation -/

/-- `get_full_name_from_username(username)` (lines 497–508): scan
`USER_MAP` (canonical full name → list of aliases, in insertion order)
for the first entry whose alias list contains the username; fall back to
the username itself. -/
def get_full_name_from_username (user_map : List (String × List String))
    (username : String) : String :=
  match user_map with
  | [] => username
  | (full_name, usernames) :: rest =>
    if username ∈ usernames then full_name
    else get_full_name_from_username rest username

/-- `get_author_name(obj)` on an issue object (the `"user" in obj`
branch): resolve `obj["user"].get("login") or "unknown"`. -/
def get_author_name_issue (user_map : List (String × List String))
    (i : Issue) : String :=
  get_full_name_from_username user_map (str_or_unknown i.user_login)

/-- `get_author_name(obj)` on a commit object (the `"author" in obj`
branch): resolve `obj.get("author") or "unknown"`. -/
def get_author_name_commit (user_map : List (String × List String))
    (c : Commit) : String :=
  get_full_name_from_username user_map (str_or_unknown c.author)

/-- One entry of `author_data`: `{"issues": [...], "commits": [...]}`. -/
structure Bucket where
  issues : List ActivityInfo
  commits : List Commit
deriving DecidableEq

/-- The empty bucket installed by `setdefault`. -/
def emptyBucket : Bucket := ⟨[], []⟩

/-- Lookup in the insertion-ordered `author_data` dict (empty bucket for
an absent author, matching `setdefault` semantics for reasoning). -/
def lookupB (m : List (String × Bucket)) (k : String) : Bucket :=
  match m with
  | [] => emptyBucket
  | p :: rest => if p.1 = k then p.2 else lookupB rest k

/-- `author_data.setdefault(k, empty)` followed by a mutation of the
bucket at `k`: update in place when the key exists, else append a new
entry (Python dicts preserve insertion order). -/
def updateB (m : List (String × Bucket)) (k : String) (f : Bucket → Bucket) :
    List (String × Bucket) :=
  match m with
  | [] => [(k, f emptyBucket)]
  | p :: rest => if p.1 = k then (p.1, f p.2) :: rest else p :: updateB rest k f

/-- The inner commit loop of the per-`info` step (lines 620–622):
append the commit to the issue author's bucket only when the commit's
own resolved author equals the issue author. -/
def add_commit_if_author (user_map : List (String × List String))
    (issue_author : String) (m : List (String × Bucket)) (commit : Commit) :
    List (String × Bucket) :=
  if get_author_name_commit user_map commit = issue_author then
    updateB m issue_author
      (fun b => { b with commits := b.commits ++ [commit] })
  else m

/-- The per-`info` step of `generate_quarto_report_per_author` (lines
615–622): append the `ActivityInfo` to its issue author's bucket, then
append each linked commit whose author equals the issue author. -/
def add_issue_info (user_map : List (String × List String))
    (m : List (String × Bucket)) (info : ActivityInfo) :
    List (String × Bucket) :=
  let issue_author := get_author_name_issue user_map info.issue
  let m1 := updateB m issue_author
    (fun b => { b with issues := b.issues ++ [info] })
  info.commits.foldl (add_commit_if_author user_map issue_author) m1

/-- The per-commit step of the repo-wide pass (lines 624–627): append
the commit to its own author's bucket. -/
def add_repo_commit (user_map : List (String × List String))
    (m : List (String × Bucket)) (commit : Commit) :
    List (String × Bucket) :=
  updateB m (get_author_name_commit user_map commit)
    (fun b => { b with commits := b.commits ++ [commit] })

/-- The `author_data` grouping built by
`generate_quarto_report_per_author` (lines 613–627): all issue infos
first, then all repo-wide commits. -/
def build_author_data (user_map : List (String × List String))
    (issues_info : List ActivityInfo) (repo_commits : List Commit) :
    List (String × Bucket) :=
  repo_commits.foldl (add_repo_commit user_map)
    (issues_info.foldl (add_issue_info user_map) [])

/-! ## The date normalizer (`parse_date_input`) -/

/-- A timezone-aware instant at the resolution `datetime` carries
(microseconds); `tz` names the attached timezone. -/
structure SPDateTime where
  year : Nat
  month : Nat
  day : Nat
  hour : Nat
  minute : Nat
  second : Nat
  microsecond : Nat
  tz : String
deriving DecidableEq, Repr

/-- Split a character list on a separator character (Python `split`). -/
def splitCharAux (sep : Char) : List Char → List Char → List (List Char)
  | [], cur => [cur.reverse]
  | c :: rest, cur =>
    if c = sep then cur.reverse :: splitCharAux sep rest []
    else splitCharAux sep rest (c :: cur)

/-- Split a character list on a separator character. -/
def splitChar (sep : Char) (l : List Char) : List (List Char) :=
  splitCharAux sep l []

/-- Decimal digits to a natural number. -/
def digitsToNat (l : List Char) : Nat :=
  l.foldl (fun acc c => acc * 10 + (c.toNat - '0'.toNat)) 0

/-- Gregorian leap-year rule. -/
def isLeapYear (y : Nat) : Bool :=
  (y % 4 = 0 && !(y % 100 = 0)) || y % 400 = 0

/-- Days in a month of a given year. -/
def daysInMonth (y m : Nat) : Nat :=
  if m = 2 then (if isLeapYear y then 29 else 28)
  else if m = 4 ∨ m = 6 ∨ m = 9 ∨ m = 11 then 30
  else 31

/-- `datetime.strptime(s, "%Y-%m-%d")` on a canonical bare date: three
dash-separated all-digit fields of widths 4, 2, 2 forming a valid
calendar date with the year in `datetime`'s range
(`MINYEAR = 1 ≤ year ≤ 9999 = MAXYEAR`); `none` models the `ValueError`
path (including "year 0 is out of range"). -/
def parseYMD (s : String) : Option (Nat × Nat × Nat) :=
  match splitChar '-' s.data with
  | [ys, ms, ds] =>
    if ys.length = 4 ∧ ms.length = 2 ∧ ds.length = 2 ∧
        (ys ++ ms ++ ds).all Char.isDigit then
      let y := digitsToNat ys
      let m := digitsToNat ms
      let d := digitsToNat ds
      if 1 ≤ y ∧ y ≤ 9999 ∧ 1 ≤ m ∧ m ≤ 12 ∧ 1 ≤ d ∧ d ≤ daysInMonth y m then
        some (y, m, d)
      else none
    else none
  | _ => none

/-- `parse_date_input(s, default_time_start)` (lines 58–98), bare-date
branch: after `strip()`, a string of length 10 with two dashes is parsed
as a date and combined with `time.min` (00:00:00) or `time.max`
(23:59:59.999999) in the São Paulo timezone.  The ISO-timestamp branches
(`Z` suffix / `fromisoformat`) are outside every claim's scope and are
mapped to `none` together with the `ValueError` path. -/
def parse_date_input (s : String) (default_time_start : Bool) :
    Option SPDateTime :=
  let s := pyStrip s
  if s.length = 10 ∧ s.data.count '-' = 2 then
    match parseYMD s with
    | some (y, m, d) =>
      if default_time_start then
        some ⟨y, m, d, 0, 0, 0, 0, "America/Sao_Paulo"⟩
      else
        some ⟨y, m, d, 23, 59, 59, 999999, "America/Sao_Paulo"⟩
    | none => none
  else none

/-! ## Concrete instances used by the witness theorems -/

/-- First commit of PR #20 in the C1 scenario. -/
def c1RawA : RawCommit := ⟨some "a1", "first commit", none, some "Alice", none⟩

/-- Second commit of PR #20 in the C1 scenario. -/
def c1RawB : RawCommit := ⟨some "a2", "second commit", none, some "Alice", none⟩

/-- The repo-wide commit whose message mentions `#11` in the C1 scenario. -/
def c1RawC : RawCommit := ⟨some "a3", "fix #11 done", none, some "Bob", none⟩

/-- Primary issue #10 of the C1 scenario. -/
def c1Issue10 : Issue := ⟨10, some "alice"⟩

/-- Sub-issue #11 of the C1 scenario. -/
def c1Issue11 : Issue := ⟨11, some "bob"⟩

/-- The C1 scenario environment: issue #10 tracks #11, PR #20
cross-references #10 (2 commits), one window commit mentions `#11`. -/
def c1Env : Env :=
  { issue_detail := fun n => if n = 11 then c1Issue11 else ⟨n, none⟩
  , tracked_nodes := fun n => if n = 10 then [⟨some 11⟩] else []
  , timeline_pages := fun n _page =>
      if n = 10 then
        [⟨some "cross-referenced", some ⟨some "pull_request", some 20⟩⟩]
      else []
  , pr_commit_pages := fun prn _page =>
      if prn = 20 then [c1RawA, c1RawB] else []
  , repo_pages := fun page => if page = 1 then [c1RawC] else [] }

/-- Issue #1 of the C2 witness scenario. -/
def c2Issue1 : Issue := ⟨1, none⟩

/-- Sub-issue #2 of the C2 witness scenario. -/
def c2Issue2 : Issue := ⟨2, none⟩

/-- C2 witness environment: PR #7 cross-references both issue #1 and its
sub-issue #2, so its commits must be fetched only once. -/
def c2Env : Env :=
  { issue_detail := fun n => if n = 2 then c2Issue2 else ⟨n, none⟩
  , tracked_nodes := fun n => if n = 1 then [⟨some 2⟩] else []
  , timeline_pages := fun n _page =>
      if n = 1 ∨ n = 2 then
        [⟨some "cross-referenced", some ⟨some "pull_request", some 7⟩⟩]
      else []
  , pr_commit_pages := fun prn _page =>
      if prn = 7 then [⟨some "b1", "work", none, none, none⟩] else []
  , repo_pages := fun _page => [] }

/-- Search-item pages of sizes [100, 100, 37] for the C5 witness. -/
def c5ItemPages : Nat → List SearchItem := fun page =>
  if page = 1 ∨ page = 2 then (List.range 100).map SearchItem.mk
  else if page = 3 then (List.range 37).map SearchItem.mk
  else []

/-- Raw-commit pages of sizes [100, 100, 37] for the C5 witness. -/
def c5RawPages : Nat → List RawCommit := fun page =>
  if page = 1 ∨ page = 2 then
    (List.range 100).map (fun i => ⟨some (toString i), "", none, none, none⟩)
  else if page = 3 then
    (List.range 37).map (fun i => ⟨some (toString i), "", none, none, none⟩)
  else []

/-- A PR-commit endpoint whose collection spans two pages (100 + 1
items); used to refute claim C6 for `fetch_commits_from_pr`. -/
def c6Pages : Nat → List RawCommit := fun page =>
  if page = 1 then List.replicate 100 ⟨some "s", "m", none, none, none⟩
  else if page = 2 then [⟨some "t", "m2", none, none, none⟩]
  else []

/-- A PR-commit endpoint whose collection fits in one page; used by the
C6 witness. -/
def c6SmallPages : Nat → List RawCommit := fun page =>
  if page = 1 then [⟨some "u", "m3", none, none, none⟩] else []

/-- A timeline endpoint used by the C6 witness. -/
def c6TimelinePages : Nat → List TimelineEvent := fun page =>
  if page = 1 then
    [⟨some "cross-referenced", some ⟨some "pull_request", some 9⟩⟩]
  else []

/-- C8 witness environment: the two searches overlap on issue 5 and
return numbers out of order. -/
def c8Env : IssueSearchEnv :=
  { search_pages := fun field page =>
      if page = 1 then
        (if field = "created" then [⟨5⟩, ⟨3⟩] else [⟨5⟩, ⟨1⟩])
      else []
  , issue_detail := fun n => ⟨n, none⟩ }

/-- A commit authored by Alice for the C7 witness. -/
def c7CommitA : Commit := ⟨some "ca", some "m", none, some "alice", none⟩

/-- A commit authored by Bob for the C7 witness. -/
def c7CommitB : Commit := ⟨some "cb", some "m", none, some "bob", none⟩

/-- An ActivityInfo authored by Alice carrying commits by Alice and Bob,
for the C7 witness. -/
def c7Info : ActivityInfo :=
  ⟨⟨1, some "alice"⟩, [], ∅, [c7CommitA, c7CommitB]⟩

/-- The identity map of the C7 witness. -/
def c7UserMap : List (String × List String) := [("Alice", ["alice"])]

/-- A raw commit whose 203-character message mentions `#11` only from
character position 200 on; used by the C10 witness. -/
def c10Raw : RawCommit :=
  ⟨some "deadbeef",
   String.mk (List.replicate 200 'a' ++ ['#', '1', '1']),
   none, none, none⟩

/-- Repo pages containing only `c10Raw`, for the C10 witness. -/
def c10Pages : Nat → List RawCommit := fun page =>
  if page = 1 then [c10Raw] else []

/-! ## Lemmas about `dedupe_commits` -/

/-- Unfolding lemma: `keepFirstByKey` on the empty list. -/
theorem keepFirstByKey_nil : keepFirstByKey [] = [] := by
  rw [keepFirstByKey]

/-- Unfolding lemma: `keepFirstByKey` on a cons cell keeps the head and
removes every later commit with the same key. -/
theorem keepFirstByKey_cons (c : Commit) (rest : List Commit) :
    keepFirstByKey (c :: rest) =
      c :: keepFirstByKey
        (rest.filter (fun d => !(commitKey d == commitKey c))) := by
  rw [keepFirstByKey]

/-- `dedupeAux` only drops elements. -/
theorem dedupeAux_sublist (l : List Commit) :
    ∀ seen, List.Sublist (dedupeAux l seen) l := by
  induction l with
  | nil => intro seen; simp [dedupeAux]
  | cons c rest ih =>
    intro seen
    simp only [dedupeAux]
    by_cases h : commitKey c ∈ seen
    · rw [if_pos h]; exact (ih seen).cons c
    · rw [if_neg h]; exact (ih _).cons₂ c

/-- `dedupeAux` with a seen set computes `keepFirstByKey` of the list
with the already-seen keys filtered away. -/
theorem dedupeAux_eq_keepFirst (l : List Commit) :
    ∀ seen, dedupeAux l seen =
      keepFirstByKey (l.filter (fun c => decide (commitKey c ∉ seen))) := by
  induction l with
  | nil => intro seen; simp [dedupeAux, keepFirstByKey_nil]
  | cons c rest ih =>
    intro seen
    by_cases h : commitKey c ∈ seen
    · rw [List.filter_cons, if_neg (by simp [h])]
      simp only [dedupeAux, if_pos h]
      exact ih seen
    · rw [List.filter_cons, if_pos (by simp [h])]
      simp only [dedupeAux, if_neg h]
      rw [keepFirstByKey_cons, List.filter_filter]
      rw [ih (commitKey c :: seen)]
      congr 1
      congr 1
      apply List.filter_congr
      intro x _
      by_cases h1 : commitKey x = commitKey c <;>
        by_cases h2 : commitKey x ∈ seen <;>
          simp [h1, h2, List.mem_cons]

/-- `dedupe_commits` keeps exactly the first occurrence of each
identity key. -/
theorem dedupe_eq_keepFirst (l : List Commit) :
    dedupe_commits l = keepFirstByKey l := by
  rw [dedupe_commits, dedupeAux_eq_keepFirst l []]
  congr 1
  apply List.filter_eq_self.mpr
  intro x _
  simp

/-- Elements of `keepFirstByKey l` come from `l`. -/
theorem mem_of_mem_keepFirstByKey (l : List Commit) :
    ∀ x ∈ keepFirstByKey l, x ∈ l := by
  induction l using keepFirstByKey.induct with
  | case1 => intro x hx; rw [keepFirstByKey_nil] at hx; simp at hx
  | case2 c rest ih =>
    intro x hx
    rw [keepFirstByKey_cons] at hx
    rcases List.mem_cons.mp hx with h | h
    · exact h ▸ List.mem_cons_self _ _
    · exact List.mem_cons_of_mem _ (List.mem_of_mem_filter (ih x h))

/-- `keepFirstByKey` is idempotent. -/
theorem keepFirst_idem (l : List Commit) :
    keepFirstByKey (keepFirstByKey l) = keepFirstByKey l := by
  induction l using keepFirstByKey.induct with
  | case1 => simp [keepFirstByKey_nil]
  | case2 c rest ih =>
    rw [keepFirstByKey_cons, keepFirstByKey_cons]
    have hfix :
        (keepFirstByKey (rest.filter (fun d => !(commitKey d == commitKey c)))).filter
            (fun d => !(commitKey d == commitKey c)) =
          keepFirstByKey (rest.filter (fun d => !(commitKey d == commitKey c))) := by
      apply List.filter_eq_self.mpr
      intro x hx
      exact (List.mem_filter.mp (mem_of_mem_keepFirstByKey _ x hx)).2
    rw [hfix, ih]

/-- C3: for every list of commit records `C`, `dedupe` is idempotent,
and `dedupe C` is the subsequence of `C` keeping the first occurrence of
each identity key, where the key is the (truthy) `sha` field and
otherwise the deterministic full-structural JSON serialization of the
record. -/
theorem claim_C3_dedupe_idempotent_first_occurrence (C : List Commit) :
    dedupe_commits (dedupe_commits C) = dedupe_commits C
    ∧ List.Sublist (dedupe_commits C) C
    ∧ dedupe_commits C = keepFirstByKey C := by
  refine ⟨?_, dedupeAux_sublist C [], dedupe_eq_keepFirst C⟩
  calc dedupe_commits (dedupe_commits C)
      = keepFirstByKey (keepFirstByKey C) := by
        rw [dedupe_eq_keepFirst, dedupe_eq_keepFirst]
    _ = keepFirstByKey C := keepFirst_idem C
    _ = dedupe_commits C := (dedupe_eq_keepFirst C).symm

/-! ## The date normalizer -/

/-- C4: for every bare `YYYY-MM-DD` input (after stripping: ten
characters, two dashes, a valid calendar date), parsing with the
end-of-day flag (i.e. `default_time_start = False`) yields the instant
`23:59:59(.999999)` of that day in the São Paulo timezone, and parsing
with the flag unset yields `00:00:00`. -/
theorem claim_C4_bare_date_window (s : String) (y m d : Nat)
    (hlen : (pyStrip s).length = 10)
    (hdash : (pyStrip s).data.count '-' = 2)
    (hymd : parseYMD (pyStrip s) = some (y, m, d)) :
    parse_date_input s true = some ⟨y, m, d, 0, 0, 0, 0, "America/Sao_Paulo"⟩
    ∧ parse_date_input s false =
        some ⟨y, m, d, 23, 59, 59, 999999, "America/Sao_Paulo"⟩ := by
  constructor <;>
    · simp only [parse_date_input]
      rw [if_pos ⟨hlen, hdash⟩, hymd]
      simp

/-- Witness for C4 at the spec's example `"2023-06-01"`. -/
theorem claim_C4_bare_date_window_witness :
    parse_date_input "2023-06-01" true =
      some ⟨2023, 6, 1, 0, 0, 0, 0, "America/Sao_Paulo"⟩
    ∧ parse_date_input "2023-06-01" false =
      some ⟨2023, 6, 1, 23, 59, 59, 999999, "America/Sao_Paulo"⟩ :=
  claim_C4_bare_date_window "2023-06-01" 2023 6 1 (by decide) (by decide)
    (by decide)

/-! ## Identity resolution -/

/-- C9: canonical resolution returns a canonical full name whose alias
set contains the raw string, and the raw string itself when no alias set
contains it; in particular `"jdoe" ↦ "John Doe"` and
`"unmapped_user" ↦ "unmapped_user"` under the spec's example map. -/
theorem claim_C9_identity_resolution (user_map : List (String × List String))
    (username : String) :
    ((∀ p ∈ user_map, username ∉ p.2) →
      get_full_name_from_username user_map username = username)
    ∧ ((∃ p ∈ user_map, username ∈ p.2) →
      ∃ p ∈ user_map, username ∈ p.2 ∧
        get_full_name_from_username user_map username = p.1)
    ∧ get_full_name_from_username [("John Doe", ["jdoe", "j_doe"])] "jdoe"
        = "John Doe"
    ∧ get_full_name_from_username [("John Doe", ["jdoe", "j_doe"])]
        "unmapped_user" = "unmapped_user" := by
  refine ⟨?_, ?_, by decide, by decide⟩
  · intro h
    induction user_map with
    | nil => rfl
    | cons p rest ih =>
      obtain ⟨full_name, usernames⟩ := p
      have hni : username ∉ usernames := h _ (List.mem_cons_self _ _)
      simp only [get_full_name_from_username, if_neg hni]
      exact ih (fun q hq => h q (List.mem_cons_of_mem _ hq))
  · intro h
    induction user_map with
    | nil => simp at h
    | cons p rest ih =>
      obtain ⟨full_name, usernames⟩ := p
      by_cases hm : username ∈ usernames
      · exact ⟨(full_name, usernames), List.mem_cons_self _ _, hm,
          by simp only [get_full_name_from_username, if_pos hm]⟩
      · obtain ⟨q, hq, hqu⟩ := h
        rcases List.mem_cons.mp hq with rfl | hq'
        · exact absurd hqu hm
        · obtain ⟨r, hr, hru, hres⟩ := ih ⟨q, hq', hqu⟩
          exact ⟨r, List.mem_cons_of_mem _ hr, hru,
            by simpa only [get_full_name_from_username, if_neg hm] using hres⟩

/-- Witness for C9 at the spec's example map. -/
theorem claim_C9_identity_resolution_witness :
    get_full_name_from_username [("John Doe", ["jdoe", "j_doe"])]
      "unmapped_user" = "unmapped_user"
    ∧ ∃ p ∈ [("John Doe", ["jdoe", "j_doe"])], "jdoe" ∈ p.2 ∧
        get_full_name_from_username [("John Doe", ["jdoe", "j_doe"])] "jdoe"
          = p.1 :=
  ⟨(claim_C9_identity_resolution [("John Doe", ["jdoe", "j_doe"])]
      "unmapped_user").1 (by decide),
   (claim_C9_identity_resolution [("John Doe", ["jdoe", "j_doe"])]
      "jdoe").2.1 (by decide)⟩

/-! ## Pagination lemmas -/

/-- Stop law of the issue-search loop: when pages `p, …, p+j-1` are full
(≥ 100 items) and page `p+j` is the first short page, the loop requests
exactly `j+1` pages and returns their items in page order. -/
theorem search_loop_complete (j : Nat) :
    ∀ (pages : Nat → List SearchItem) (fuel p : Nat),
      j + 1 ≤ fuel →
      (∀ i, p ≤ i → i < p + j → per_page ≤ (pages i).length) →
      (pages (p + j)).length < per_page →
      search_pages_loop pages fuel p
        = (((List.range j).map (fun i => pages (p + i))).flatten ++ pages (p + j),
           j + 1) := by
  induction j with
  | zero =>
    intro pages fuel p hfuel _ hshort
    obtain ⟨f, rfl⟩ : ∃ f, fuel = f + 1 := ⟨fuel - 1, by omega⟩
    simp only [search_pages_loop]
    by_cases he : (pages p).isEmpty
    · rw [if_pos he]
      have hnil : pages p = [] := by simpa using he
      simp [hnil]
    · rw [if_neg he, if_pos (by simpa using hshort)]
      simp
  | succ j ih =>
    intro pages fuel p hfuel hfull hshort
    obtain ⟨f, rfl⟩ : ∃ f, fuel = f + 1 := ⟨fuel - 1, by omega⟩
    have hp : per_page ≤ (pages p).length := hfull p le_rfl (by omega)
    have hne : ¬ (pages p).isEmpty = true := by
      intro hc
      have hnil : pages p = [] := by simpa using hc
      rw [hnil] at hp
      simp [per_page] at hp
    simp only [search_pages_loop]
    rw [if_neg hne, if_neg (Nat.not_lt.mpr hp)]
    rw [ih pages f (p + 1) (by omega)
      (fun i h1 h2 => hfull i (by omega) (by omega))
      (by rw [show p + 1 + j = p + (j + 1) by omega]; exact hshort)]
    rw [List.range_succ_eq_map, List.map_cons, List.map_map, List.flatten_cons]
    have h1 : ((fun i => pages (p + i)) ∘ Nat.succ) = fun i => pages (p + 1 + i) := by
      funext i
      simp only [Function.comp]
      congr 1
      omega
    have h2 : p + (j + 1) = p + 1 + j := by omega
    rw [h1, h2, Nat.add_zero, List.append_assoc]
    simp

/-- Stop law of the repo-commit loop: same shape as the search loop,
with per-item extraction applied to each collected page. -/
theorem repo_loop_complete (j : Nat) :
    ∀ (pages : Nat → List RawCommit) (fuel p : Nat),
      j + 1 ≤ fuel →
      (∀ i, p ≤ i → i < p + j → per_page ≤ (pages i).length) →
      (pages (p + j)).length < per_page →
      repo_commits_loop pages fuel p
        = ((((List.range j).map (fun i => pages (p + i))).flatten ++
            pages (p + j)).map extractCommit,
           j + 1) := by
  induction j with
  | zero =>
    intro pages fuel p hfuel _ hshort
    obtain ⟨f, rfl⟩ : ∃ f, fuel = f + 1 := ⟨fuel - 1, by omega⟩
    simp only [repo_commits_loop]
    by_cases he : (pages p).isEmpty
    · rw [if_pos he]
      have hnil : pages p = [] := by simpa using he
      simp [hnil]
    · rw [if_neg he, if_pos (by simpa using hshort)]
      simp
  | succ j ih =>
    intro pages fuel p hfuel hfull hshort
    obtain ⟨f, rfl⟩ : ∃ f, fuel = f + 1 := ⟨fuel - 1, by omega⟩
    have hp : per_page ≤ (pages p).length := hfull p le_rfl (by omega)
    have hne : ¬ (pages p).isEmpty = true := by
      intro hc
      have hnil : pages p = [] := by simpa using hc
      rw [hnil] at hp
      simp [per_page] at hp
    simp only [repo_commits_loop]
    rw [if_neg hne, if_neg (Nat.not_lt.mpr hp)]
    rw [ih pages f (p + 1) (by omega)
      (fun i h1 h2 => hfull i (by omega) (by omega))
      (by rw [show p + 1 + j = p + (j + 1) by omega]; exact hshort)]
    rw [List.range_succ_eq_map, List.map_cons, List.map_map, List.flatten_cons]
    have h1 : ((fun i => pages (p + i)) ∘ Nat.succ) = fun i => pages (p + 1 + i) := by
      funext i
      simp only [Function.comp]
      congr 1
      omega
    have h2 : p + (j + 1) = p + 1 + j := by omega
    rw [h1, h2, Nat.add_zero, List.map_append, List.append_assoc, List.map_append]
    simp [List.map_append]

/-- C5: both paginated fetches (issue search and repository commit
listing) stop right after the first page shorter than 100 items (empty
included), returning the pages' items in order without consulting any
total count; on page sizes `[100, 100, 37]` they request exactly 3 pages
and return exactly 237 items. -/
theorem claim_C5_pagination (pI : Nat → List SearchItem)
    (pC : Nat → List RawCommit) (fuel : Nat) :
    (∀ j, j + 1 ≤ fuel →
      (∀ i, 1 ≤ i → i < 1 + j → per_page ≤ (pI i).length) →
      (pI (1 + j)).length < per_page →
      search_issues_by_field pI fuel
        = (((List.range j).map (fun i => pI (1 + i))).flatten ++ pI (1 + j), j + 1))
    ∧ (∀ j, j + 1 ≤ fuel →
      (∀ i, 1 ≤ i → i < 1 + j → per_page ≤ (pC i).length) →
      (pC (1 + j)).length < per_page →
      fetch_repo_commits_in_range pC fuel
        = ((((List.range j).map (fun i => pC (1 + i))).flatten ++
            pC (1 + j)).map extractCommit, j + 1))
    ∧ (3 ≤ fuel → (pI 1).length = 100 → (pI 2).length = 100 →
        (pI 3).length = 37 →
        search_issues_by_field pI fuel = (pI 1 ++ (pI 2 ++ pI 3), 3)
        ∧ (search_issues_by_field pI fuel).1.length = 237)
    ∧ (3 ≤ fuel → (pC 1).length = 100 → (pC 2).length = 100 →
        (pC 3).length = 37 →
        fetch_repo_commits_in_range pC fuel
          = ((pC 1 ++ (pC 2 ++ pC 3)).map extractCommit, 3)
        ∧ (fetch_repo_commits_in_range pC fuel).1.length = 237) := by
  refine ⟨?_, ?_, ?_, ?_⟩
  · intro j hf hfull hshort
    exact search_loop_complete j pI fuel 1 hf hfull hshort
  · intro j hf hfull hshort
    exact repo_loop_complete j pC fuel 1 hf hfull hshort
  · intro hf h1 h2 h3
    have hgen := search_loop_complete 2 pI fuel 1 (by omega)
      (by
        intro i hi1 hi2
        interval_cases i
        · rw [per_page, h1]
        · rw [per_page, h2])
      (by rw [show (1 + 2 : Nat) = 3 by omega, h3]; simp [per_page])
    rw [show (1 + 2 : Nat) = 3 by omega] at hgen
    have hflat :
        ((List.range 2).map (fun i => pI (1 + i))).flatten ++ pI 3
          = pI 1 ++ (pI 2 ++ pI 3) := by
      simp [List.range_succ, List.append_assoc]
    constructor
    · show search_pages_loop pI fuel 1 = _
      rw [hgen, hflat]
    · show (search_pages_loop pI fuel 1).1.length = 237
      rw [hgen, hflat]
      simp [List.length_append, h1, h2, h3]
  · intro hf h1 h2 h3
    have hgen := repo_loop_complete 2 pC fuel 1 (by omega)
      (by
        intro i hi1 hi2
        interval_cases i
        · rw [per_page, h1]
        · rw [per_page, h2])
      (by rw [show (1 + 2 : Nat) = 3 by omega, h3]; simp [per_page])
    rw [show (1 + 2 : Nat) = 3 by omega] at hgen
    have hflat :
        ((List.range 2).map (fun i => pC (1 + i))).flatten ++ pC 3
          = pC 1 ++ (pC 2 ++ pC 3) := by
      simp [List.range_succ, List.append_assoc]
    constructor
    · show repo_commits_loop pC fuel 1 = _
      rw [hgen, hflat]
    · show (repo_commits_loop pC fuel 1).1.length = 237
      rw [hgen, hflat]
      simp [List.length_append, h1, h2, h3]

/-- Witness for C5 on concrete oracles with page sizes [100, 100, 37]. -/
theorem claim_C5_pagination_witness :
    (search_issues_by_field c5ItemPages 5 = (c5ItemPages 1 ++ (c5ItemPages 2 ++ c5ItemPages 3), 3)
      ∧ (search_issues_by_field c5ItemPages 5).1.length = 237)
    ∧ (fetch_repo_commits_in_range c5RawPages 5
        = ((c5RawPages 1 ++ (c5RawPages 2 ++ c5RawPages 3)).map extractCommit, 3)
      ∧ (fetch_repo_commits_in_range c5RawPages 5).1.length = 237) :=
  ⟨(claim_C5_pagination c5ItemPages c5RawPages 5).2.2.1 (by omega)
      (by simp [c5ItemPages]) (by simp [c5ItemPages]) (by simp [c5ItemPages]),
   (claim_C5_pagination c5ItemPages c5RawPages 5).2.2.2 (by omega)
      (by simp [c5RawPages]) (by simp [c5RawPages]) (by simp [c5RawPages])⟩

/-! ## Claim C6: the PR-commit and timeline fetches are NOT paginated -/

/-- C6 counterexample: on a PR whose commit collection spans two pages
(100 + 1 items), `fetch_commits_from_pr` returns only the 100 items of
the first response, not the 101 items the spec's pagination rule would
collect — the single GET of lines 327–331 carries no `page`/`per_page`
parameter. -/
theorem claim_C6_counterexample :
    fetch_commits_from_pr c6Pages
        ≠ (spec_paginated_items c6Pages 5 1).map extractCommit
    ∧ (fetch_commits_from_pr c6Pages).length = 100
    ∧ ((spec_paginated_items c6Pages 5 1).map extractCommit).length = 101 := by
  have h1 : (fetch_commits_from_pr c6Pages).length = 100 := by decide
  have h2 : ((spec_paginated_items c6Pages 5 1).map extractCommit).length = 101 := by
    decide
  refine ⟨?_, h1, h2⟩
  intro h
  rw [h, h2] at h1
  exact absurd h1 (by decide)

/-- C6 (amended): the issue search and the repo commit listing are
paginated with page size 100 (claim C5), but the pull-request commit
listing and the issue timeline listing each perform a single request and
return only the items extracted from that one response; this coincides
with the spec's pagination rule only when the collection fits in one
page. -/
theorem claim_C6_amended_single_request
    (prPages prPages2 : Nat → List RawCommit)
    (tlPages tlPages2 : Nat → List TimelineEvent) (fuel : Nat) :
    fetch_commits_from_pr prPages = (prPages 1).map extractCommit
    ∧ (prPages 1 = prPages2 1 →
        fetch_commits_from_pr prPages = fetch_commits_from_pr prPages2)
    ∧ (tlPages 1 = tlPages2 1 →
        fetch_prs_from_timeline tlPages = fetch_prs_from_timeline tlPages2)
    ∧ ((prPages 1).length < per_page → 1 ≤ fuel →
        fetch_commits_from_pr prPages
          = (spec_paginated_items prPages fuel 1).map extractCommit) := by
  refine ⟨rfl, ?_, ?_, ?_⟩
  · intro h
    simp [fetch_commits_from_pr, h]
  · intro h
    simp [fetch_prs_from_timeline, h]
  · intro hshort hfuel
    obtain ⟨f, rfl⟩ : ∃ f, fuel = f + 1 := ⟨fuel - 1, by omega⟩
    simp only [spec_paginated_items]
    rw [if_pos hshort]
    rfl

/-- Witness for the amended C6 on concrete single-page endpoints. -/
theorem claim_C6_amended_single_request_witness :
    fetch_commits_from_pr c6SmallPages = (c6SmallPages 1).map extractCommit
    ∧ fetch_commits_from_pr c6SmallPages
        = (spec_paginated_items c6SmallPages 3 1).map extractCommit
    ∧ fetch_prs_from_timeline c6TimelinePages
        = fetch_prs_from_timeline c6TimelinePages :=
  ⟨(claim_C6_amended_single_request c6SmallPages c6SmallPages
      c6TimelinePages c6TimelinePages 3).1,
   (claim_C6_amended_single_request c6SmallPages c6SmallPages
      c6TimelinePages c6TimelinePages 3).2.2.2 (by decide) (by omega),
   (claim_C6_amended_single_request c6SmallPages c6SmallPages
      c6TimelinePages c6TimelinePages 3).2.2.1 rfl⟩

/-! ## Claim C10: the message-mention search sees only truncated messages -/

/-- A prefix of a truncation is a prefix of the whole list. -/
theorem isPrefixList_of_take (pat : List Char) :
    ∀ (m : Nat) (xs : List Char), isPrefixList pat (xs.take m) = true →
      isPrefixList pat xs = true := by
  induction pat with
  | nil => intro m xs _; rfl
  | cons a as ih =>
    intro m xs h
    cases m with
    | zero => simp [isPrefixList] at h
    | succ k =>
      cases xs with
      | nil => simp [isPrefixList] at h
      | cons b bs =>
        rw [List.take_succ_cons] at h
        simp only [isPrefixList, Bool.and_eq_true, decide_eq_true_eq] at h ⊢
        exact ⟨h.1, ih k bs h.2⟩

/-- A successful substring test yields an occurrence position. -/
theorem isSubList_exists (pat : List Char) (hne : pat ≠ []) :
    ∀ l, isSubList pat l = true →
      ∃ p, p < l.length ∧ isPrefixList pat (l.drop p) = true := by
  intro l
  induction l with
  | nil =>
    intro h
    cases pat with
    | nil => exact absurd rfl hne
    | cons a as => simp [isSubList, isPrefixList] at h
  | cons c rest ih =>
    intro h
    rw [isSubList, Bool.or_eq_true] at h
    rcases h with h1 | h2
    · exact ⟨0, by simp, by simpa using h1⟩
    · obtain ⟨p, hp, hpre⟩ := ih h2
      exact ⟨p + 1, Nat.succ_lt_succ hp, hpre⟩

/-- C10: `fetch_commits_search` filters on the `msg` field that was
already truncated to the first 200 characters of the raw message — a
commit whose raw message mentions `#<n>` only at or beyond character
position 200 is excluded from the issue's results. -/
theorem claim_C10_truncated_message_search
    (pages : Nat → List RawCommit) (fuel n : Nat) (raw : RawCommit)
    (h : ∀ p, p < 200 →
      isPrefixList ("#" ++ toString n).data (raw.message.data.drop p) = false) :
    strContains (str_or_empty (extractCommit raw).msg) ("#" ++ toString n) = false
    ∧ extractCommit raw ∉ fetch_commits_search pages fuel n := by
  have hkey : strContains (str_or_empty (extractCommit raw).msg)
      ("#" ++ toString n) = false := by
    show isSubList ("#" ++ toString n).data (raw.message.data.take 200) = false
    apply Bool.eq_false_iff.mpr
    intro htrue
    have hne : ("#" ++ toString n).data ≠ [] := by
      rw [String.data_append]
      simp [String.data]
    obtain ⟨p, hp, hpre⟩ := isSubList_exists _ hne _ htrue
    have hplt : p < 200 :=
      lt_of_lt_of_le hp (List.length_take_le 200 raw.message.data)
    have hdt : (raw.message.data.take 200).drop p
        = (raw.message.data.drop p).take (200 - p) := by
      rw [List.drop_take]
    have hpre' : isPrefixList ("#" ++ toString n).data (raw.message.data.drop p)
        = true := by
      apply isPrefixList_of_take _ (200 - p)
      rw [← hdt]
      exact hpre
    rw [h p hplt] at hpre'
    exact absurd hpre' (by simp)
  refine ⟨hkey, ?_⟩
  intro hmem
  simp only [fetch_commits_search] at hmem
  have := (List.mem_filter.mp hmem).2
  rw [hkey] at this
  exact absurd this (by simp)

set_option maxRecDepth 4000 in
/-- Witness for C10: a 203-character message carrying `#11` only at
position 200 is excluded from the `#11` search even though the commit is
in the window. -/
theorem claim_C10_truncated_message_search_witness :
    strContains (str_or_empty (extractCommit c10Raw).msg) ("#" ++ toString 11)
        = false
    ∧ extractCommit c10Raw ∉ fetch_commits_search c10Pages 1 11 :=
  claim_C10_truncated_message_search c10Pages 1 11 c10Raw (by decide)

/-! ## Claim C8: the issue collector -/

/-- C8: the issue collector takes the set union of the two searches'
issue numbers, fetches each unique number's detail exactly once, and
processes the numbers in ascending order independent of the order the
API returned them. -/
theorem claim_C8_issue_union_sorted (env : IssueSearchEnv) (fuel : Nat) :
    fetch_issues_in_date_range env fuel
      = (issue_numbers_sorted env fuel).map env.issue_detail
    ∧ (issue_numbers_sorted env fuel).Nodup
    ∧ List.Sorted (· ≤ ·) (issue_numbers_sorted env fuel)
    ∧ (∀ n, n ∈ issue_numbers_sorted env fuel ↔
        n ∈ ((search_issues_by_field (env.search_pages "created") fuel).1 ++
             (search_issues_by_field (env.search_pages "updated") fuel).1).map
              SearchItem.number)
    ∧ (∀ (env2 : IssueSearchEnv) (fuel2 : Nat),
        (∀ n,
          n ∈ ((search_issues_by_field (env2.search_pages "created") fuel2).1 ++
               (search_issues_by_field (env2.search_pages "updated") fuel2).1).map
                SearchItem.number ↔
          n ∈ ((search_issues_by_field (env.search_pages "created") fuel).1 ++
               (search_issues_by_field (env.search_pages "updated") fuel).1).map
                SearchItem.number) →
        issue_numbers_sorted env2 fuel2 = issue_numbers_sorted env fuel) := by
  refine ⟨rfl, ((List.perm_insertionSort _ _).nodup_iff).mpr (List.nodup_dedup _),
    List.sorted_insertionSort _ _, ?_, ?_⟩
  · intro n
    rw [issue_numbers_sorted, (List.perm_insertionSort _ _).mem_iff,
      List.mem_dedup]
  · intro env2 fuel2 hiff
    have hn1 : (issue_numbers_sorted env2 fuel2).Nodup :=
      ((List.perm_insertionSort _ _).nodup_iff).mpr (List.nodup_dedup _)
    have hn2 : (issue_numbers_sorted env fuel).Nodup :=
      ((List.perm_insertionSort _ _).nodup_iff).mpr (List.nodup_dedup _)
    have hmem : ∀ n, n ∈ issue_numbers_sorted env2 fuel2 ↔
        n ∈ issue_numbers_sorted env fuel := by
      intro n
      rw [issue_numbers_sorted, issue_numbers_sorted,
        (List.perm_insertionSort _ _).mem_iff, List.mem_dedup,
        (List.perm_insertionSort _ _).mem_iff, List.mem_dedup]
      exact hiff n
    exact List.eq_of_perm_of_sorted
      ((List.perm_ext_iff_of_nodup hn1 hn2).mpr hmem)
      (List.sorted_insertionSort _ _) (List.sorted_insertionSort _ _)

/-- Witness for C8: overlapping out-of-order searches yield the sorted
deduplicated numbers `[1, 3, 5]`. -/
theorem claim_C8_issue_union_sorted_witness :
    fetch_issues_in_date_range c8Env 1
      = (issue_numbers_sorted c8Env 1).map c8Env.issue_detail
    ∧ (issue_numbers_sorted c8Env 1).Nodup
    ∧ List.Sorted (· ≤ ·) (issue_numbers_sorted c8Env 1)
    ∧ issue_numbers_sorted c8Env 1 = issue_numbers_sorted c8Env 1
    ∧ issue_numbers_sorted c8Env 1 = [1, 3, 5] :=
  ⟨(claim_C8_issue_union_sorted c8Env 1).1,
   (claim_C8_issue_union_sorted c8Env 1).2.1,
   (claim_C8_issue_union_sorted c8Env 1).2.2.1,
   (claim_C8_issue_union_sorted c8Env 1).2.2.2.2 c8Env 1 (fun _n => Iff.rfl),
   by decide⟩

/-! ## Claim C7: the author aggregation -/

/-- Looking up the key just updated applies the bucket mutation. -/
theorem lookupB_updateB_self (m : List (String × Bucket)) (k : String)
    (f : Bucket → Bucket) :
    lookupB (updateB m k f) k = f (lookupB m k) := by
  induction m with
  | nil => simp [updateB, lookupB]
  | cons p rest ih =>
    by_cases h : p.1 = k
    · simp [updateB, lookupB, h]
    · simp [updateB, lookupB, h, ih]

/-- Updating one key leaves every other key's bucket unchanged. -/
theorem lookupB_updateB_ne (m : List (String × Bucket)) (k k' : String)
    (f : Bucket → Bucket) (h : k' ≠ k) :
    lookupB (updateB m k f) k' = lookupB m k' := by
  induction m with
  | nil =>
    simp only [updateB, lookupB]
    rw [if_neg (fun hh => h hh.symm)]
  | cons p rest ih =>
    by_cases hp : p.1 = k
    · have hk' : ¬ p.1 = k' := fun hh => h (hh ▸ hp)
      simp only [updateB, if_pos hp, lookupB]
      rw [if_neg hk', if_neg hk']
    · by_cases hq : p.1 = k'
      · simp only [updateB, if_neg hp, lookupB]
        rw [if_pos hq, if_pos hq]
      · simp only [updateB, if_neg hp, lookupB]
        rw [if_neg hq, if_neg hq]
        exact ih

/-- The inner commit loop appends to the issue author's bucket exactly
the commits whose own author matches. -/
theorem lookupB_fold_add_commit_self
    (um : List (String × List String)) (ath : String) (cs : List Commit) :
    ∀ m, lookupB (cs.foldl (add_commit_if_author um ath) m) ath
      = { issues := (lookupB m ath).issues
        , commits := (lookupB m ath).commits ++
            cs.filter (fun c => decide (get_author_name_commit um c = ath)) } := by
  induction cs with
  | nil => intro m; simp
  | cons c rest ih =>
    intro m
    rw [List.foldl_cons]
    by_cases h : get_author_name_commit um c = ath
    · rw [show add_commit_if_author um ath m c
          = updateB m ath (fun b => { b with commits := b.commits ++ [c] }) from
        by rw [add_commit_if_author, if_pos h]]
      rw [ih, lookupB_updateB_self]
      simp [List.filter_cons, h, List.append_assoc]
    · rw [show add_commit_if_author um ath m c = m from
        by rw [add_commit_if_author, if_neg h]]
      rw [ih]
      simp [List.filter_cons, h]

/-- The inner commit loop touches no bucket other than the issue
author's. -/
theorem lookupB_fold_add_commit_ne
    (um : List (String × List String)) (ath : String) (cs : List Commit) :
    ∀ m k, k ≠ ath →
      lookupB (cs.foldl (add_commit_if_author um ath) m) k = lookupB m k := by
  induction cs with
  | nil => intro m k _; rfl
  | cons c rest ih =>
    intro m k hk
    rw [List.foldl_cons]
    by_cases h : get_author_name_commit um c = ath
    · rw [show add_commit_if_author um ath m c
          = updateB m ath (fun b => { b with commits := b.commits ++ [c] }) from
        by rw [add_commit_if_author, if_pos h]]
      rw [ih _ _ hk, lookupB_updateB_ne _ _ _ _ hk]
    · rw [show add_commit_if_author um ath m c = m from
        by rw [add_commit_if_author, if_neg h]]
      exact ih _ _ hk

/-- Effect of one `add_issue_info` step on an arbitrary bucket. -/
theorem lookupB_add_issue_info (um : List (String × List String))
    (m : List (String × Bucket)) (info : ActivityInfo) (k : String) :
    lookupB (add_issue_info um m info) k =
      if k = get_author_name_issue um info.issue then
        { issues := (lookupB m k).issues ++ [info]
        , commits := (lookupB m k).commits ++
            info.commits.filter
              (fun c => decide (get_author_name_commit um c = k)) }
      else lookupB m k := by
  by_cases h : k = get_author_name_issue um info.issue
  · rw [if_pos h]
    rw [add_issue_info]
    rw [← h, lookupB_fold_add_commit_self, lookupB_updateB_self]
  · rw [if_neg h]
    rw [add_issue_info]
    rw [lookupB_fold_add_commit_ne _ _ _ _ _ h, lookupB_updateB_ne _ _ _ _ h]

/-- Effect of the whole issue-info pass on an arbitrary bucket. -/
theorem lookupB_fold_issues (um : List (String × List String))
    (infos : List ActivityInfo) :
    ∀ m k, lookupB (infos.foldl (add_issue_info um) m) k =
      { issues := (lookupB m k).issues ++
          infos.filter (fun i => decide (get_author_name_issue um i.issue = k))
      , commits := (lookupB m k).commits ++
          (infos.filter
            (fun i => decide (get_author_name_issue um i.issue = k))).flatMap
              (fun i => i.commits.filter
                (fun c => decide (get_author_name_commit um c = k))) } := by
  induction infos with
  | nil => intro m k; simp
  | cons info rest ih =>
    intro m k
    rw [List.foldl_cons, ih, lookupB_add_issue_info]
    by_cases h : k = get_author_name_issue um info.issue
    · rw [if_pos h]
      simp [List.filter_cons, h.symm, List.append_assoc]
    · rw [if_neg h]
      have hne : ¬ get_author_name_issue um info.issue = k := fun hh => h hh.symm
      simp [List.filter_cons, hne]

/-- Effect of the repo-wide commit pass on an arbitrary bucket. -/
theorem lookupB_fold_repo (um : List (String × List String))
    (cs : List Commit) :
    ∀ m k, lookupB (cs.foldl (add_repo_commit um) m) k =
      { issues := (lookupB m k).issues
      , commits := (lookupB m k).commits ++
          cs.filter (fun c => decide (get_author_name_commit um c = k)) } := by
  induction cs with
  | nil => intro m k; simp
  | cons c rest ih =>
    intro m k
    rw [List.foldl_cons, ih]
    by_cases h : get_author_name_commit um c = k
    · rw [add_repo_commit, h, lookupB_updateB_self]
      simp [List.filter_cons, h, List.append_assoc]
    · rw [add_repo_commit,
        lookupB_updateB_ne _ _ _ _ (fun hh => h hh.symm)]
      simp [List.filter_cons, h]

/-- C7: every ActivityInfo lands in its issue author's bucket; linked
commits land in that bucket only when the commit's own canonical author
equals the issue's; every repo-wide commit lands in its own author's
bucket — the full bucket contents, for every author. -/
theorem claim_C7_author_buckets (um : List (String × List String))
    (issues_info : List ActivityInfo) (repo_commits : List Commit)
    (a : String) :
    lookupB (build_author_data um issues_info repo_commits) a =
      { issues := issues_info.filter
          (fun i => decide (get_author_name_issue um i.issue = a))
      , commits :=
          (issues_info.filter
            (fun i => decide (get_author_name_issue um i.issue = a))).flatMap
              (fun i => i.commits.filter
                (fun c => decide (get_author_name_commit um c = a)))
          ++ repo_commits.filter
              (fun c => decide (get_author_name_commit um c = a)) } := by
  rw [build_author_data, lookupB_fold_repo, lookupB_fold_issues]
  simp [lookupB, emptyBucket]

/-- Witness for C7 at the spec's Alice/Bob example. -/
theorem claim_C7_author_buckets_witness :
    lookupB (build_author_data c7UserMap [c7Info] [c7CommitB]) "Alice"
      = { issues := [c7Info], commits := [c7CommitA] }
    ∧ lookupB (build_author_data c7UserMap [c7Info] [c7CommitB]) "bob"
      = { issues := [], commits := [c7CommitB] } := by
  constructor
  · rw [claim_C7_author_buckets]
    decide
  · rw [claim_C7_author_buckets]
    decide

/-! ## Claim C1: the resolver scenario -/

/-- C1: for an issue #10 with one sub-issue #11, whose own timeline
yields exactly PR #20 carrying two commits, whose sub-issue timeline is
empty, and where the window-wide message search yields nothing for #10
and exactly one commit for #11, the resolver returns
`pr_numbers = {20}`, `commits = [c1, c2, c3]` (the PR commits first,
the message-match last), and `sub_issues = [issue11]`. -/
theorem claim_C1_resolver_scenario (env : Env) (fuel : Nat)
    (issue10 issue11 : Issue) (nd : TrackedNode) (c1 c2 c3 : Commit)
    (h10 : issue10.number = 10)
    (hnd : env.tracked_nodes 10 = [nd])
    (hndn : nd.number = some 11)
    (h11 : env.issue_detail 11 = issue11)
    (h11n : issue11.number = 11)
    (ht10 : fetch_prs_from_timeline (env.timeline_pages 10) = [20])
    (ht11 : fetch_prs_from_timeline (env.timeline_pages 11) = [])
    (hpc : fetch_commits_from_pr (env.pr_commit_pages 20) = [c1, c2])
    (hs10 : fetch_commits_search env.repo_pages fuel 10 = [])
    (hs11 : fetch_commits_search env.repo_pages fuel 11 = [c3]) :
    (gather_activity_for_issue env fuel issue10).pr_numbers = {20}
    ∧ (gather_activity_for_issue env fuel issue10).commits = [c1, c2, c3]
    ∧ (gather_activity_for_issue env fuel issue10).sub_issues = [issue11] := by
  have hsub : fetch_sub_issues env 10 = [issue11] := by
    rw [fetch_sub_issues, hnd]
    simp [hndn, fetch_issue, h11]
  simp only [gather_activity_for_issue, h10, hsub, ht10, ht11, hs10, hs11]
  simp [process_timeline_prs, sub_issue_step, hpc, ht11, hs11, h11n,
    Finset.not_mem_empty]

/-- Witness for C1 on the concrete scenario environment. -/
theorem claim_C1_resolver_scenario_witness :
    (gather_activity_for_issue c1Env 1 c1Issue10).pr_numbers = {20}
    ∧ (gather_activity_for_issue c1Env 1 c1Issue10).commits
        = [extractCommit c1RawA, extractCommit c1RawB, extractCommit c1RawC]
    ∧ (gather_activity_for_issue c1Env 1 c1Issue10).sub_issues = [c1Issue11] :=
  claim_C1_resolver_scenario c1Env 1 c1Issue10 c1Issue11 ⟨some 11⟩
    (extractCommit c1RawA) (extractCommit c1RawB) (extractCommit c1RawC)
    rfl rfl rfl rfl rfl (by decide) (by decide) rfl (by decide) (by decide)

/-! ## Claim C2: no duplicate PR commit fetch -/

/-- Unfolding the traced PR loop one step (the state update is the
source's `if prn not in pr_numbers` guard). -/
theorem process_traced_cons (pages : Nat → Nat → List RawCommit)
    (prn : Nat) (rest : List Nat) (a : Finset Nat) (b : List Commit)
    (tr : List Nat) :
    process_timeline_prs_traced pages (prn :: rest) ⟨a, b, tr⟩
      = process_timeline_prs_traced pages rest
          (if prn ∈ a then ⟨a, b, tr⟩
           else ⟨insert prn a, b ++ fetch_commits_from_pr (pages prn),
                 tr ++ [prn]⟩) := rfl

/-- Unfolding the untraced PR loop one step. -/
theorem process_cons (pages : Nat → Nat → List RawCommit)
    (prn : Nat) (rest : List Nat) (a : Finset Nat) (b : List Commit) :
    process_timeline_prs pages (prn :: rest) (a, b)
      = process_timeline_prs pages rest
          (if prn ∈ a then (a, b)
           else (insert prn a, b ++ fetch_commits_from_pr (pages prn))) := rfl

/-- The traced PR loop projects onto the untraced one. -/
theorem process_traced_proj (pages : Nat → Nat → List RawCommit)
    (prs : List Nat) :
    ∀ (a : Finset Nat) (b : List Commit) (tr : List Nat),
      ((process_timeline_prs_traced pages prs ⟨a, b, tr⟩).pr_numbers,
       (process_timeline_prs_traced pages prs ⟨a, b, tr⟩).commits)
        = process_timeline_prs pages prs (a, b) := by
  induction prs with
  | nil => intro a b tr; rfl
  | cons prn rest ih =>
    intro a b tr
    rw [process_traced_cons, process_cons]
    by_cases h : prn ∈ a
    · rw [if_pos h, if_pos h]
      exact ih a b tr
    · rw [if_neg h, if_neg h]
      exact ih (insert prn a) (b ++ fetch_commits_from_pr (pages prn))
        (tr ++ [prn])

/-- The traced sub-issue fold projects onto the untraced one. -/
theorem subfold_traced_proj (env : Env) (fuel : Nat) (sis : List Issue) :
    ∀ (st : TraceSt),
      ((sis.foldl (sub_issue_step_traced env fuel) st).pr_numbers,
       (sis.foldl (sub_issue_step_traced env fuel) st).commits)
        = sis.foldl (sub_issue_step env fuel) (st.pr_numbers, st.commits) := by
  induction sis with
  | nil => intro st; rfl
  | cons si rest ih =>
    intro st
    rw [List.foldl_cons, List.foldl_cons]
    have hstep : ((sub_issue_step_traced env fuel st si).pr_numbers,
        (sub_issue_step_traced env fuel st si).commits)
        = sub_issue_step env fuel (st.pr_numbers, st.commits) si := by
      by_cases h : si.number = 0
      · simp only [sub_issue_step_traced, sub_issue_step]
        rw [if_pos h, if_pos h]
      · simp only [sub_issue_step_traced, sub_issue_step]
        rw [if_neg h, if_neg h]
        have hp := process_traced_proj env.pr_commit_pages
          (fetch_prs_from_timeline (env.timeline_pages si.number))
          st.pr_numbers st.commits st.fetched
        rw [← hp]
    have hrest := ih (sub_issue_step_traced env fuel st si)
    rw [hstep] at hrest
    exact hrest

/-- The traced resolver projects onto `gather_activity_for_issue`. -/
theorem gather_traced_proj (env : Env) (fuel : Nat) (issue : Issue) :
    (gather_activity_traced env fuel issue).1
      = gather_activity_for_issue env fuel issue := by
  have hproc := process_traced_proj env.pr_commit_pages
    (fetch_prs_from_timeline (env.timeline_pages issue.number)) ∅ [] []
  have hsub := subfold_traced_proj env fuel (fetch_sub_issues env issue.number)
    ⟨(process_timeline_prs_traced env.pr_commit_pages
        (fetch_prs_from_timeline (env.timeline_pages issue.number))
        ⟨∅, [], []⟩).pr_numbers,
      (process_timeline_prs_traced env.pr_commit_pages
        (fetch_prs_from_timeline (env.timeline_pages issue.number))
        ⟨∅, [], []⟩).commits ++
        fetch_commits_search env.repo_pages fuel issue.number,
      (process_timeline_prs_traced env.pr_commit_pages
        (fetch_prs_from_timeline (env.timeline_pages issue.number))
        ⟨∅, [], []⟩).fetched⟩
  dsimp only [gather_activity_traced, gather_activity_for_issue]
  rw [ActivityInfo.mk.injEq, ← hproc]
  exact ⟨rfl, rfl, congrArg Prod.fst hsub, congrArg Prod.snd hsub⟩

/-- The traced PR loop keeps the trace duplicate-free and in sync with
`pr_numbers`. -/
theorem process_traced_inv (pages : Nat → Nat → List RawCommit)
    (prs : List Nat) :
    ∀ (a : Finset Nat) (b : List Commit) (tr : List Nat),
      tr.Nodup → (∀ p, p ∈ tr ↔ p ∈ a) →
      (process_timeline_prs_traced pages prs ⟨a, b, tr⟩).fetched.Nodup
      ∧ ∀ p, p ∈ (process_timeline_prs_traced pages prs ⟨a, b, tr⟩).fetched
          ↔ p ∈ (process_timeline_prs_traced pages prs ⟨a, b, tr⟩).pr_numbers := by
  induction prs with
  | nil => intro a b tr h1 h2; exact ⟨h1, h2⟩
  | cons prn rest ih =>
    intro a b tr h1 h2
    rw [process_traced_cons]
    by_cases h : prn ∈ a
    · rw [if_pos h]
      exact ih a b tr h1 h2
    · rw [if_neg h]
      apply ih
      · have hni : prn ∉ tr := fun hm => h ((h2 prn).mp hm)
        simp [List.nodup_append, h1, hni]
      · intro p
        rw [List.mem_append, List.mem_singleton, Finset.mem_insert, h2 p]
        tauto

/-- One traced sub-issue step preserves the trace invariant. -/
theorem sub_step_traced_inv (env : Env) (fuel : Nat) (si : Issue)
    (st : TraceSt) (h1 : st.fetched.Nodup)
    (h2 : ∀ p, p ∈ st.fetched ↔ p ∈ st.pr_numbers) :
    (sub_issue_step_traced env fuel st si).fetched.Nodup
    ∧ ∀ p, p ∈ (sub_issue_step_traced env fuel st si).fetched
        ↔ p ∈ (sub_issue_step_traced env fuel st si).pr_numbers := by
  by_cases h : si.number = 0
  · simp only [sub_issue_step_traced]
    rw [if_pos h]
    exact ⟨h1, h2⟩
  · simp only [sub_issue_step_traced]
    rw [if_neg h]
    exact process_traced_inv env.pr_commit_pages
      (fetch_prs_from_timeline (env.timeline_pages si.number))
      st.pr_numbers st.commits st.fetched h1 h2

/-- The traced sub-issue fold preserves the trace invariant. -/
theorem subfold_traced_inv (env : Env) (fuel : Nat) (sis : List Issue) :
    ∀ (st : TraceSt), st.fetched.Nodup →
      (∀ p, p ∈ st.fetched ↔ p ∈ st.pr_numbers) →
      (sis.foldl (sub_issue_step_traced env fuel) st).fetched.Nodup
      ∧ ∀ p, p ∈ (sis.foldl (sub_issue_step_traced env fuel) st).fetched
          ↔ p ∈ (sis.foldl (sub_issue_step_traced env fuel) st).pr_numbers := by
  induction sis with
  | nil => intro st h1 h2; exact ⟨h1, h2⟩
  | cons si rest ih =>
    intro st h1 h2
    rw [List.foldl_cons]
    have hstep := sub_step_traced_inv env fuel si st h1 h2
    exact ih _ hstep.1 hstep.2

/-- The untraced PR loop's set contains every processed PR number and
everything already present. -/
theorem process_mem (pages : Nat → Nat → List RawCommit) (prs : List Nat) :
    ∀ (a : Finset Nat) (b : List Commit) (q : Nat), (q ∈ prs ∨ q ∈ a) →
      q ∈ (process_timeline_prs pages prs (a, b)).1 := by
  induction prs with
  | nil =>
    intro a b q h
    rcases h with h | h
    · simp at h
    · exact h
  | cons prn rest ih =>
    intro a b q h
    rw [process_cons]
    by_cases hc : prn ∈ a
    · rw [if_pos hc]
      apply ih
      rcases h with h | h
      · rcases List.mem_cons.mp h with rfl | h'
        · exact Or.inr hc
        · exact Or.inl h'
      · exact Or.inr h
    · rw [if_neg hc]
      apply ih
      rcases h with h | h
      · rcases List.mem_cons.mp h with rfl | h'
        · exact Or.inr (Finset.mem_insert_self _ _)
        · exact Or.inl h'
      · exact Or.inr (Finset.mem_insert_of_mem h)

/-- One untraced sub-issue step never removes a discovered PR number. -/
theorem sub_step_mem (env : Env) (fuel : Nat)
    (st : Finset Nat × List Commit) (si : Issue) (q : Nat)
    (h : q ∈ st.1) : q ∈ (sub_issue_step env fuel st si).1 := by
  by_cases hz : si.number = 0
  · simp only [sub_issue_step]
    rw [if_pos hz]
    exact h
  · simp only [sub_issue_step]
    rw [if_neg hz]
    exact process_mem env.pr_commit_pages _ st.1 st.2 q (Or.inr h)

/-- The untraced sub-issue fold never removes a discovered PR number. -/
theorem subfold_mono (env : Env) (fuel : Nat) (sis : List Issue) :
    ∀ (st : Finset Nat × List Commit) (q : Nat), q ∈ st.1 →
      q ∈ (sis.foldl (sub_issue_step env fuel) st).1 := by
  induction sis with
  | nil => intro st q h; exact h
  | cons si rest ih =>
    intro st q h
    rw [List.foldl_cons]
    exact ih _ q (sub_step_mem env fuel st si q h)

/-- A sub-issue with a truthy number contributes all its timeline PRs. -/
theorem sub_step_adds (env : Env) (fuel : Nat)
    (st : Finset Nat × List Commit) (si : Issue) (hnz : si.number ≠ 0)
    (q : Nat)
    (hq : q ∈ fetch_prs_from_timeline (env.timeline_pages si.number)) :
    q ∈ (sub_issue_step env fuel st si).1 := by
  simp only [sub_issue_step]
  rw [if_neg hnz]
  exact process_mem env.pr_commit_pages _ st.1 st.2 q (Or.inl hq)

/-- Every processed sub-issue's timeline PRs end up in the final set. -/
theorem subfold_adds (env : Env) (fuel : Nat) (sis : List Issue) :
    ∀ (st : Finset Nat × List Commit) (si : Issue), si ∈ sis →
      si.number ≠ 0 →
      ∀ q ∈ fetch_prs_from_timeline (env.timeline_pages si.number),
        q ∈ (sis.foldl (sub_issue_step env fuel) st).1 := by
  induction sis with
  | nil =>
    intro st si h
    simp at h
  | cons s0 rest ih =>
    intro st si hmem hnz q hq
    rw [List.foldl_cons]
    rcases List.mem_cons.mp hmem with rfl | hmem'
    · exact subfold_mono env fuel rest _ q (sub_step_adds env fuel st si hnz q hq)
    · exact ih _ si hmem' hnz q hq

/-- C2: within one resolution pass, each PR number's commits are fetched
and appended exactly once — the traced resolver agrees with the plain
one, its fetch trace has no duplicates and coincides with the final
`pr_numbers` set, and every PR discovered on the parent's or any truthy
sub-issue's timeline is in that set (so a PR seen on both timelines
triggers exactly one fetch). -/
theorem claim_C2_no_duplicate_pr_fetch (env : Env) (fuel : Nat)
    (issue : Issue) :
    (gather_activity_traced env fuel issue).1
        = gather_activity_for_issue env fuel issue
    ∧ (gather_activity_traced env fuel issue).2.Nodup
    ∧ (∀ p, p ∈ (gather_activity_traced env fuel issue).2 ↔
        p ∈ (gather_activity_for_issue env fuel issue).pr_numbers)
    ∧ (∀ p, p ∈ fetch_prs_from_timeline (env.timeline_pages issue.number) →
        p ∈ (gather_activity_for_issue env fuel issue).pr_numbers)
    ∧ (∀ si, si ∈ (gather_activity_for_issue env fuel issue).sub_issues →
        si.number ≠ 0 →
        ∀ p, p ∈ fetch_prs_from_timeline (env.timeline_pages si.number) →
          p ∈ (gather_activity_for_issue env fuel issue).pr_numbers) := by
  have hagree := gather_traced_proj env fuel issue
  have hinv1 := process_traced_inv env.pr_commit_pages
    (fetch_prs_from_timeline (env.timeline_pages issue.number)) ∅ [] []
    List.nodup_nil (by simp)
  have hinv3 := subfold_traced_inv env fuel (fetch_sub_issues env issue.number)
    ⟨(process_timeline_prs_traced env.pr_commit_pages
        (fetch_prs_from_timeline (env.timeline_pages issue.number))
        ⟨∅, [], []⟩).pr_numbers,
      (process_timeline_prs_traced env.pr_commit_pages
        (fetch_prs_from_timeline (env.timeline_pages issue.number))
        ⟨∅, [], []⟩).commits ++
        fetch_commits_search env.repo_pages fuel issue.number,
      (process_timeline_prs_traced env.pr_commit_pages
        (fetch_prs_from_timeline (env.timeline_pages issue.number))
        ⟨∅, [], []⟩).fetched⟩
    hinv1.1 hinv1.2
  refine ⟨hagree, hinv3.1, ?_, ?_, ?_⟩
  · intro p
    rw [← hagree]
    exact hinv3.2 p
  · intro p hp
    exact subfold_mono env fuel (fetch_sub_issues env issue.number)
      ((process_timeline_prs env.pr_commit_pages
          (fetch_prs_from_timeline (env.timeline_pages issue.number))
          (∅, [])).1,
        (process_timeline_prs env.pr_commit_pages
          (fetch_prs_from_timeline (env.timeline_pages issue.number))
          (∅, [])).2 ++ fetch_commits_search env.repo_pages fuel issue.number)
      p (process_mem env.pr_commit_pages _ ∅ [] p (Or.inl hp))
  · intro si hsi hnz p hp
    exact subfold_adds env fuel (fetch_sub_issues env issue.number)
      ((process_timeline_prs env.pr_commit_pages
          (fetch_prs_from_timeline (env.timeline_pages issue.number))
          (∅, [])).1,
        (process_timeline_prs env.pr_commit_pages
          (fetch_prs_from_timeline (env.timeline_pages issue.number))
          (∅, [])).2 ++ fetch_commits_search env.repo_pages fuel issue.number)
      si hsi hnz p hp

/-- Witness for C2: PR #7 cross-references both issue #1 and its
sub-issue #2, yet the fetch trace is exactly `[7]`. -/
theorem claim_C2_no_duplicate_pr_fetch_witness :
    (gather_activity_traced c2Env 1 c2Issue1).2.Nodup
    ∧ (gather_activity_traced c2Env 1 c2Issue1).1
        = gather_activity_for_issue c2Env 1 c2Issue1
    ∧ (7 ∈ (gather_activity_traced c2Env 1 c2Issue1).2 ↔
        7 ∈ (gather_activity_for_issue c2Env 1 c2Issue1).pr_numbers)
    ∧ (gather_activity_traced c2Env 1 c2Issue1).2 = [7] :=
  ⟨(claim_C2_no_duplicate_pr_fetch c2Env 1 c2Issue1).2.1,
   (claim_C2_no_duplicate_pr_fetch c2Env 1 c2Issue1).1,
   (claim_C2_no_duplicate_pr_fetch c2Env 1 c2Issue1).2.2.1 7,
   by decide⟩

end GHActivity
